import Mathlib

/-!
Shallow embedding of `src/ExpenseScreen.js` (student-expense-tracker).

The screen keeps an in-memory view state (loaded rows, three form fields,
one filter selector) over a single SQLite table
`expenses(id, amount, category, note, date)`.  We embed:

* JavaScript number values produced by `parseFloat` as an inductive `JSNum`
  (NaN, the two infinities, and finite values as exact rationals; IEEE
  rounding of finite values is not modelled — it preserves the sign and
  zero tests the code performs, except that sub-double-precision positive
  values would additionally round to `0` and be rejected);
* JavaScript `Date` values as integer millisecond timestamps;
  `new Date()` is the parameter `now`, and the device's fixed UTC offset in
  milliseconds (DST is not modelled) is the parameter `o`, so local time is
  `now + o`;
* the stored `date` column (a `YYYY-MM-DD` string produced by
  `new Date().toISOString().split('T')[0]`) by its denotation: the number
  of days since the Unix epoch of that UTC calendar day.  Parsing it back
  with `new Date(expense.date)` yields UTC midnight of that day, i.e.
  `date * msPerDay`;
* the calendar arithmetic of `getDate`/`setDate`/`getMonth`/`setMonth`
  with the proleptic Gregorian conversions `civilFromDays` /
  `daysFromCivil` (exactly ECMAScript's `YearFromTime` / `MonthFromTime` /
  `DateFromTime` and `MakeDay`, which accepts out-of-range month and day
  fields and normalises them);
* the SQL statements by their effect on an ordered list of rows plus the
  `AUTOINCREMENT` counter.  `SELECT * FROM expenses ORDER BY date DESC`
  leaves the relative order of equal dates unspecified in SQLite; we model
  the stable scan order (a stable merge sort on descending date).
-/

namespace ExpenseTracker

/-! ## JavaScript numbers and `parseFloat` -/

/-- A JavaScript number as produced by `parseFloat`: NaN, an infinity, or a
finite value (modelled as an exact rational). -/
inductive JSNum where
  | nan
  | posInf
  | negInf
  | num (q : Rat)
deriving DecidableEq

/-- `isNaN(x)`. -/
def JSNum.isNaN : JSNum → Bool
  | .nan => true
  | _ => false

/-- The JavaScript comparison `x <= 0` (false on NaN). -/
def JSNum.leZero : JSNum → Bool
  | .nan => false
  | .posInf => false
  | .negInf => true
  | .num q => decide (q ≤ 0)

/-- The JavaScript comparison `x > 0` (false on NaN). -/
def JSNum.pos : JSNum → Bool
  | .nan => false
  | .posInf => true
  | .negInf => false
  | .num q => decide (0 < q)

/-- White space as skipped by `parseFloat` and removed by
`String.prototype.trim` (ECMAScript WhiteSpace and LineTerminator; the
rarer Unicode space separators are omitted, none of the claims involve
them). -/
def isJsWhitespace (c : Char) : Bool :=
  c = ' ' || c = '\t' || c = '\n' || c = '\r' || c = '\x0b' || c = '\x0c' ||
  c = '\u00A0' || c = '\uFEFF' || c = '\u2028' || c = '\u2029'

/-- Value of a list of decimal digit characters. -/
def digitsToNat (ds : List Char) : Nat :=
  ds.foldl (fun a c => a * 10 + (c.toNat - 48)) 0


/-- The optional `ExponentPart` of a `StrDecimalLiteral`.  `parseFloat`
consumes `e`/`E` with an optional sign only when at least one digit
follows; otherwise the exponent contributes a factor of `10 ^ 0`. -/
def expPart (cs : List Char) : Int :=
  match cs with
  | c :: rest =>
    if c = 'e' || c = 'E' then
      match rest with
      | '-' :: t => if (t.span Char.isDigit).1 = [] then 0
                    else -(digitsToNat (t.span Char.isDigit).1 : Int)
      | '+' :: t => if (t.span Char.isDigit).1 = [] then 0
                    else (digitsToNat (t.span Char.isDigit).1 : Int)
      | t => if (t.span Char.isDigit).1 = [] then 0
             else (digitsToNat (t.span Char.isDigit).1 : Int)
    else 0
  | [] => 0

/-- The finite value `± (ip . fp) × 10 ^ e` of a parsed decimal literal
with integer digits `ip`, fraction digits `fp` and exponent `e`, assembled
as one normalised rational. -/
def mkNum (neg : Bool) (ip fp : List Char) (e : Int) : JSNum :=
  let mant : Int := (digitsToNat ip * 10 ^ fp.length + digitsToNat fp : Nat)
  let snum : Int := if neg then -mant else mant
  match e with
  | Int.ofNat k => .num (mkRat (snum * (10 ^ k : Nat)) (10 ^ fp.length))
  | Int.negSucc k => .num (mkRat snum (10 ^ fp.length * 10 ^ (k + 1)))

/-- `parseFloat(s)`: skip leading white space, read an optional sign, then
the longest prefix that is a `StrUnsignedDecimalLiteral`
(`Infinity`, `digits [. digits] [exp]`, or `. digits [exp]`); NaN when no
such prefix exists.  Trailing garbage is ignored. -/
def jsParseFloat (s : String) : JSNum :=
  let cs := s.data.dropWhile isJsWhitespace
  let signed : Bool × List Char :=
    match cs with
    | '-' :: t => (true, t)
    | '+' :: t => (false, t)
    | _ => (false, cs)
  let neg := signed.1
  let cs := signed.2
  if "Infinity".data.isPrefixOf cs then
    if neg then .negInf else .posInf
  else
    let ip := (cs.span Char.isDigit).1
    let rest := (cs.span Char.isDigit).2
    match ip, rest with
    | [], '.' :: t =>
      let fp := (t.span Char.isDigit).1
      if fp = [] then .nan
      else mkNum neg [] fp (expPart (t.span Char.isDigit).2)
    | [], _ => .nan
    | _, '.' :: t =>
      mkNum neg ip (t.span Char.isDigit).1 (expPart (t.span Char.isDigit).2)
    | _, _ => mkNum neg ip [] (expPart rest)

/-- `String.prototype.trim` on a character list: drop leading and trailing
white space. -/
def trimChars (l : List Char) : List Char :=
  ((l.dropWhile isJsWhitespace).reverse.dropWhile isJsWhitespace).reverse

/-- `s.trim()`. -/
def jsTrim (s : String) : String :=
  ⟨trimChars s.data⟩

/-! ## Calendar arithmetic (ECMAScript `Date`, proleptic Gregorian) -/

/-- Milliseconds per day. -/
def msPerDay : Int := 86400000

/-- ECMAScript `Day(t)`: the day number of a millisecond timestamp,
`floor(t / msPerDay)`. -/
def dayOf (t : Int) : Int := Int.fdiv t msPerDay

/-- ECMAScript `TimeWithinDay(t) = t - Day(t) * msPerDay` (in `[0, msPerDay)`). -/
def timeWithinDay (t : Int) : Int := t - dayOf t * msPerDay

/-- Civil (proleptic Gregorian) date `(year, month 1..12, day 1..31)` of a
day number — ECMAScript's `YearFromTime`, `MonthFromTime` (shifted to
1-based), `DateFromTime`, computed with the standard era decomposition. -/
def civilFromDays (z : Int) : Int × Int × Int :=
  let z := z + 719468
  let era := Int.fdiv z 146097
  let doe := z - era * 146097
  let yoe := Int.fdiv (doe - Int.fdiv doe 1460 + Int.fdiv doe 36524 - Int.fdiv doe 146096) 365
  let y := yoe + era * 400
  let doy := doe - (365 * yoe + Int.fdiv yoe 4 - Int.fdiv yoe 100)
  let mp := Int.fdiv (5 * doy + 2) 153
  let d := doy - Int.fdiv (153 * mp + 2) 5 + 1
  let m := mp + (if mp < 10 then 3 else -9)
  (if m ≤ 2 then y + 1 else y, m, d)

/-- Day number of a civil date (month 1..12; the day field may lie outside
the month, extending linearly exactly as ECMAScript's `MakeDay` does). -/
def daysFromCivil (y m d : Int) : Int :=
  let y := if m ≤ 2 then y - 1 else y
  let era := Int.fdiv y 400
  let yoe := y - era * 400
  let mp := if 2 < m then m - 3 else m + 9
  let doy := Int.fdiv (153 * mp + 2) 5 + d - 1
  let doe := yoe * 365 + Int.fdiv yoe 4 - Int.fdiv yoe 100 + doy
  era * 146097 + doe - 719468

/-- ECMAScript `MakeDay(y, month, date)` with a 0-based month that may lie
outside `0..11` and an arbitrary day: normalise the month into the year
and extend linearly in the day. -/
def makeDay (y month0 date : Int) : Int :=
  daysFromCivil (y + Int.fdiv month0 12) (Int.emod month0 12 + 1) 1 + date - 1

/-! ## Data model -/

/-- One row of the `expenses` table.  `date` is the stored `YYYY-MM-DD`
string, denoted by its day number since the Unix epoch. -/
structure Expense where
  id : Int
  amount : JSNum
  category : String
  note : Option String
  date : Int
deriving DecidableEq

/-- The `expenses` table: rows in insertion (rowid) order plus the
`AUTOINCREMENT` counter for the next `id`. -/
structure DB where
  rows : List Expense
  nextId : Int
deriving DecidableEq

/-- The component state: the database plus the view state held in React
state hooks (`expenses`, `amount`, `category`, `note`, `dateFilter`). -/
structure AppState where
  db : DB
  expenses : List Expense
  amount : String
  category : String
  note : String
  dateFilter : String
deriving DecidableEq

/-! ## Operations -/

/-- `SELECT * FROM expenses ORDER BY date DESC`.  SQLite leaves the order
of rows with equal `date` unspecified; we model the stable scan order
(stable sort, ties keep insertion order). -/
def selectAllByDateDesc (rows : List Expense) : List Expense :=
  rows.mergeSort (fun a b => decide (b.date ≤ a.date))

/-- `loadExpenses`: run the select and store the result in the `expenses`
state. -/
def loadExpenses (s : AppState) : AppState :=
  { s with expenses := selectAllByDateDesc s.db.rows }

/-- The `weekAgo` bound of the `week` filter: a copy of `today` mutated by
`weekAgo.setDate(today.getDate() - 7)`.  Decompose local time into civil
fields, rebuild with the day-of-month field lowered by 7 (via `MakeDay`),
keep the time of day, convert back to UTC. -/
def weekAgoMs (o now : Int) : Int :=
  let localT := now + o
  let c := civilFromDays (dayOf localT)
  makeDay c.1 (c.2.1 - 1) (c.2.2 - 7) * msPerDay + timeWithinDay localT - o

/-- The `monthAgo` bound of the `month` filter: a copy of `today` mutated
by `monthAgo.setMonth(today.getMonth() - 1)` (0-based month lowered by 1,
day-of-month and time of day kept; `MakeDay` normalises January and lets a
day beyond the target month's length overflow into the following month). -/
def monthAgoMs (o now : Int) : Int :=
  let localT := now + o
  let c := civilFromDays (dayOf localT)
  makeDay c.1 (c.2.1 - 2) c.2.2 * msPerDay + timeWithinDay localT - o

/-- `getFilteredExpenses`: filter the loaded rows by the selector.
`new Date(expense.date)` on a `YYYY-MM-DD` string is UTC midnight of that
day, i.e. `expense.date * msPerDay`; the `week` and `month` branches test
`expenseDate >= weekAgo` / `expenseDate >= monthAgo`; `all` and any other
selector value keep every row.  The `today`-derived bounds do not depend
on the row, so they are hoisted out of the callback. -/
def getFilteredExpenses (o now : Int) (dateFilter : String)
    (expenses : List Expense) : List Expense :=
  expenses.filter fun expense =>
    if dateFilter = "all" then true
    else if dateFilter = "week" then
      decide (weekAgoMs o now ≤ expense.date * msPerDay)
    else if dateFilter = "month" then
      decide (monthAgoMs o now ≤ expense.date * msPerDay)
    else true

/-- `addExpense` at instant `now`: validate (`parseFloat` result not NaN
and `> 0`; category non-empty after trimming), else leave the state
unchanged (the alert only blocks); on success insert
`(amount, category, note || null, today)` with `today` the current UTC
calendar day from `toISOString`, clear the three form fields, and reload. -/
def addExpense (now : Int) (s : AppState) : AppState :=
  let amountNumber := jsParseFloat s.amount
  if amountNumber.isNaN || amountNumber.leZero then s
  else
    let trimmedCategory := jsTrim s.category
    let trimmedNote := jsTrim s.note
    if trimmedCategory = "" then s
    else
      let today := dayOf now
      let row : Expense :=
        { id := s.db.nextId, amount := amountNumber, category := trimmedCategory,
          note := if trimmedNote = "" then none else some trimmedNote,
          date := today }
      let db : DB := { rows := s.db.rows ++ [row], nextId := s.db.nextId + 1 }
      { db := db, expenses := selectAllByDateDesc db.rows,
        amount := "", category := "", note := "", dateFilter := s.dateFilter }

/-- `deleteExpense(id)`: `DELETE FROM expenses WHERE id = ?`, then reload. -/
def deleteExpense (id : Int) (s : AppState) : AppState :=
  let db : DB := { rows := s.db.rows.filter (fun r => decide (r.id ≠ id)),
                   nextId := s.db.nextId }
  { s with db := db, expenses := selectAllByDateDesc db.rows }

/-- The mount-time `setup`: `DROP TABLE IF EXISTS expenses`, recreate it
empty (the `AUTOINCREMENT` counter restarts at 1), then `loadExpenses`. -/
def setup (s : AppState) : AppState :=
  let db : DB := { rows := [], nextId := 1 }
  { s with db := db, expenses := selectAllByDateDesc db.rows }

/-- The civil month preceding `(y, m)` (with `m` 1-based). -/
def prevMonthPair (y m : Int) : Int × Int :=
  if m = 1 then (y - 1, 12) else (y, m - 1)

/-- The row a successful `addExpense` inserts at instant `now` from the
form fields of `s`. -/
def newRow (now : Int) (s : AppState) : Expense :=
  { id := s.db.nextId, amount := jsParseFloat s.amount,
    category := jsTrim s.category,
    note := if jsTrim s.note = "" then none else some (jsTrim s.note),
    date := dayOf now }

/-! ## Helper lemmas: trimming -/

theorem dropWhile_dropWhile_eq (p : Char → Bool) (l : List Char) :
    List.dropWhile p (List.dropWhile p l) = List.dropWhile p l := by
  induction l with
  | nil => rfl
  | cons a t ih =>
    cases h : p a with
    | true => simp [List.dropWhile_cons, h, ih]
    | false => simp [List.dropWhile_cons, h]

theorem dropWhile_head_false (p : Char → Bool) (l : List Char) {a : Char}
    {t : List Char} (h : List.dropWhile p l = a :: t) : p a = false := by
  induction l with
  | nil => simp at h
  | cons b u ih =>
    cases hb : p b with
    | true => rw [List.dropWhile_cons] at h; simp [hb] at h; exact ih h
    | false =>
      rw [List.dropWhile_cons] at h
      simp [hb] at h
      rw [← h.1]; exact hb

theorem dropWhile_cons_of_false (p : Char → Bool) (a : Char) (t : List Char)
    (h : p a = false) : List.dropWhile p (a :: t) = a :: t := by
  simp [List.dropWhile_cons, h]

/-- Trimming is idempotent. -/
theorem trimChars_idem (l : List Char) : trimChars (trimChars l) = trimChars l := by
  have hdropB : List.dropWhile isJsWhitespace (trimChars l) = trimChars l := by
    cases hB : trimChars l with
    | nil => rfl
    | cons b t =>
      apply dropWhile_cons_of_false
      have hpre : trimChars l <+: List.dropWhile isJsWhitespace l := by
        have h := (List.dropWhile_suffix
          (l := (List.dropWhile isJsWhitespace l).reverse) isJsWhitespace).reverse
        rw [List.reverse_reverse] at h
        exact h
      rw [hB] at hpre
      obtain ⟨u, hu⟩ := hpre
      have hbu : List.dropWhile isJsWhitespace l = b :: (t ++ u) := by
        rw [← hu]; simp
      exact dropWhile_head_false isJsWhitespace l hbu
  show ((List.dropWhile isJsWhitespace
    (List.dropWhile isJsWhitespace (trimChars l)).reverse)).reverse = trimChars l
  rw [hdropB]
  show (List.dropWhile isJsWhitespace
    (((List.dropWhile isJsWhitespace
      (List.dropWhile isJsWhitespace l).reverse).reverse).reverse)).reverse = trimChars l
  rw [List.reverse_reverse, dropWhile_dropWhile_eq]
  rfl

/-- `s.trim().trim() = s.trim()`. -/
theorem jsTrim_idem (s : String) : jsTrim (jsTrim s) = jsTrim s := by
  show (⟨trimChars (trimChars s.data)⟩ : String) = ⟨trimChars s.data⟩
  rw [trimChars_idem]

theorem jsTrim_eq_empty_iff (s : String) : jsTrim s = "" ↔ trimChars s.data = [] := by
  constructor
  · intro h
    have := congrArg String.data h
    simpa [jsTrim] using this
  · intro h
    simp [jsTrim, h]

/-! ## Helper lemmas: day arithmetic -/

theorem msPerDay_pos : (0 : Int) < msPerDay := by decide

theorem timeWithinDay_nonneg (t : Int) : 0 ≤ timeWithinDay t := by
  have h : timeWithinDay t = t % msPerDay := by
    rw [timeWithinDay, dayOf, Int.fdiv_eq_ediv _ (by decide : (0:Int) ≤ msPerDay),
      Int.emod_def]
    ring
  rw [h]
  exact Int.emod_nonneg t (by decide)

theorem timeWithinDay_lt (t : Int) : timeWithinDay t < msPerDay := by
  have h : timeWithinDay t = t % msPerDay := by
    rw [timeWithinDay, dayOf, Int.fdiv_eq_ediv _ (by decide : (0:Int) ≤ msPerDay),
      Int.emod_def]
    ring
  rw [h]
  exact Int.emod_lt_of_pos t msPerDay_pos

theorem dayOf_mul_le (t : Int) : dayOf t * msPerDay ≤ t := by
  have := timeWithinDay_nonneg t
  rw [timeWithinDay] at this
  omega

theorem lt_dayOf_mul (t : Int) : t < (dayOf t + 1) * msPerDay := by
  have := timeWithinDay_lt t
  rw [timeWithinDay] at this
  have : t - dayOf t * msPerDay < msPerDay := this
  nlinarith [this]

/-! ## Helper lemmas: calendar -/

/-- `daysFromCivil` is affine in its day argument (ECMAScript `MakeDay`
builds day 1 of the month and then adds). -/
theorem daysFromCivil_day (y m d : Int) :
    daysFromCivil y m d = daysFromCivil y m 1 + d - 1 := by
  simp only [daysFromCivil]
  ring

/-- `MakeDay` with an in-range 0-based month. -/
theorem makeDay_in_range (y month0 d : Int) (h0 : 0 ≤ month0) (h1 : month0 < 12) :
    makeDay y month0 d = daysFromCivil y (month0 + 1) d := by
  rw [makeDay, Int.fdiv_eq_ediv _ (by decide : (0:Int) ≤ 12),
    Int.ediv_eq_zero_of_lt h0 h1,
    show Int.emod month0 12 = month0 % 12 from rfl,
    Int.emod_eq_of_lt h0 h1,
    daysFromCivil_day y (month0 + 1) d,
    show y + 0 = y from by ring]

/-- `MakeDay` with month `-1` (January moved one month back). -/
theorem makeDay_neg_one (y d : Int) :
    makeDay y (-1) d = daysFromCivil (y - 1) 12 d := by
  rw [makeDay, show Int.fdiv (-1) 12 = -1 from by decide,
    show Int.emod (-1) 12 = 11 from by decide,
    show y + -1 = y - 1 from by ring,
    show (11 : Int) + 1 = 12 from by decide,
    daysFromCivil_day (y - 1) 12 d]

/-- The month-ago day number computed by the `month` branch is the day
number of the same day-of-month in the previous civil month (possibly
overflowing a shorter month, exactly as `MakeDay` does). -/
theorem makeDay_prev_month (y m d : Int) (h1 : 1 ≤ m) (h2 : m ≤ 12) :
    makeDay y (m - 2) d =
      daysFromCivil (prevMonthPair y m).1 (prevMonthPair y m).2 d := by
  by_cases hm : m = 1
  · subst hm
    rw [show (1 : Int) - 2 = -1 from by decide, makeDay_neg_one]
    simp [prevMonthPair]
  · have h0 : 0 ≤ m - 2 := by omega
    have h12 : m - 2 < 12 := by omega
    rw [makeDay_in_range y (m - 2) d h0 h12]
    have : m - 2 + 1 = m - 1 := by ring
    rw [this]
    simp [prevMonthPair, hm]

/-- Under the calendar facts about the current local civil date (its civil
decomposition, recomposed by `daysFromCivil`, gives back the local day
number), `setDate(getDate() - 7)` lands exactly 7 days (in milliseconds)
before `now`. -/
theorem weekAgoMs_eq (o now y m day : Int)
    (hc : civilFromDays (dayOf (now + o)) = (y, m, day))
    (hm1 : 1 ≤ m) (hm2 : m ≤ 12)
    (hrt : daysFromCivil y m day = dayOf (now + o)) :
    weekAgoMs o now = now - 7 * msPerDay := by
  rw [weekAgoMs, hc]
  have h1 : makeDay y (m - 1) (day - 7) = daysFromCivil y m (day - 7) := by
    rw [makeDay_in_range y (m - 1) (day - 7) (by omega) (by omega)]
    congr 1
    omega
  have h2 : daysFromCivil y m (day - 7) = dayOf (now + o) - 7 := by
    have ha := daysFromCivil_day y m (day - 7)
    have hb := daysFromCivil_day y m day
    omega
  rw [h1, h2, timeWithinDay]
  ring

/-- The `monthAgo` bound in terms of the previous civil month of the
current local civil date. -/
theorem monthAgoMs_eq (o now y m day : Int)
    (hc : civilFromDays (dayOf (now + o)) = (y, m, day))
    (hm1 : 1 ≤ m) (hm2 : m ≤ 12) :
    monthAgoMs o now =
      daysFromCivil (prevMonthPair y m).1 (prevMonthPair y m).2 day * msPerDay
        + timeWithinDay (now + o) - o := by
  rw [monthAgoMs, hc, makeDay_prev_month y m day hm1 hm2]

/-- Membership in the `week` view. -/
theorem mem_week_filter (o now : Int) (rows : List Expense) (e : Expense) :
    e ∈ getFilteredExpenses o now "week" rows ↔
      e ∈ rows ∧ weekAgoMs o now ≤ e.date * msPerDay := by
  simp [getFilteredExpenses, List.mem_filter]

/-- Membership in the `month` view. -/
theorem mem_month_filter (o now : Int) (rows : List Expense) (e : Expense) :
    e ∈ getFilteredExpenses o now "month" rows ↔
      e ∈ rows ∧ monthAgoMs o now ≤ e.date * msPerDay := by
  simp [getFilteredExpenses, List.mem_filter]

/-- Selector values other than `week` and `month` keep every row. -/
theorem getFilteredExpenses_id (o now : Int) (f : String) (rows : List Expense)
    (h1 : f ≠ "week") (h2 : f ≠ "month") :
    getFilteredExpenses o now f rows = rows := by
  apply List.filter_eq_self.mpr
  intro a _
  by_cases hall : f = "all" <;> simp [hall, h1, h2]

/-! ## Helper lemmas: `addExpense`, the select, `deleteExpense` -/

/-- A failed validation leaves the whole state unchanged. -/
theorem addExpense_fail (now : Int) (s : AppState)
    (h : (jsParseFloat s.amount).isNaN = true ∨
         (jsParseFloat s.amount).leZero = true ∨
         jsTrim s.category = "") :
    addExpense now s = s := by
  rcases h with h | h | h
  · simp [addExpense, h]
  · simp [addExpense, h]
  · by_cases hg : ((jsParseFloat s.amount).isNaN || (jsParseFloat s.amount).leZero) = true
    · simp [addExpense, hg]
    · simp [addExpense, hg, h]

/-- A successful validation inserts exactly `newRow now s`, clears the
form fields and reloads. -/
theorem addExpense_success (now : Int) (s : AppState)
    (h1 : (jsParseFloat s.amount).isNaN = false)
    (h2 : (jsParseFloat s.amount).leZero = false)
    (h3 : jsTrim s.category ≠ "") :
    addExpense now s =
      { db := { rows := s.db.rows ++ [newRow now s], nextId := s.db.nextId + 1 },
        expenses := selectAllByDateDesc (s.db.rows ++ [newRow now s]),
        amount := "", category := "", note := "", dateFilter := s.dateFilter } := by
  simp [addExpense, h1, h2, h3, newRow]

/-- The select is a permutation of the stored rows. -/
theorem selectAllByDateDesc_perm (rows : List Expense) :
    (selectAllByDateDesc rows).Perm rows :=
  List.mergeSort_perm rows _

/-- The select keeps counts. -/
theorem selectAllByDateDesc_count (rows : List Expense) (e : Expense) :
    (selectAllByDateDesc rows).count e = rows.count e :=
  (selectAllByDateDesc_perm rows).count_eq e

/-- If one appended row is dated strictly after every other stored row,
the select puts it first. -/
theorem selectAllByDateDesc_head_of_new_max (rows : List Expense) (e : Expense)
    (h : ∀ r ∈ rows, r.date < e.date) :
    (selectAllByDateDesc (rows ++ [e])).head? = some e := by
  have htrans : ∀ a b c : Expense,
      (decide (b.date ≤ a.date)) = true → (decide (c.date ≤ b.date)) = true →
      (decide (c.date ≤ a.date)) = true := by
    intro a b c hab hbc
    simp only [decide_eq_true_iff] at *
    omega
  have htotal : ∀ a b : Expense,
      ((decide (b.date ≤ a.date)) || (decide (a.date ≤ b.date))) = true := by
    intro a b
    rcases Int.le_total a.date b.date with hle | hle <;> simp [hle]
  have hperm := List.mergeSort_perm (rows ++ [e])
    (fun a b : Expense => decide (b.date ≤ a.date))
  have hsorted := List.sorted_mergeSort htrans htotal (rows ++ [e])
  have hmem : e ∈ (rows ++ [e]).mergeSort
      (fun a b : Expense => decide (b.date ≤ a.date)) :=
    hperm.mem_iff.mpr (by simp)
  rcases hms : (rows ++ [e]).mergeSort
      (fun a b : Expense => decide (b.date ≤ a.date)) with _ | ⟨x, t⟩
  · rw [hms] at hmem; simp at hmem
  · rw [hms] at hsorted hperm hmem
    have hx : x ∈ rows ++ [e] := hperm.mem_iff.mp (by simp)
    have hxt := (List.pairwise_cons.mp hsorted).1
    rcases List.mem_append.mp hx with hxr | hxe
    · exfalso
      rcases List.mem_cons.mp hmem with he | he
      · exact absurd (h x hxr) (by rw [← he]; omega)
      · have := hxt e he
        rw [decide_eq_true_iff] at this
        exact absurd (h x hxr) (by omega)
    · have hxeq : x = e := List.mem_singleton.mp hxe
      show ((rows ++ [e]).mergeSort
        (fun a b : Expense => decide (b.date ≤ a.date))).head? = some e
      rw [hms, List.head?_cons, hxeq]

/-- On a list of rows with pairwise-distinct ids, keeping the rows whose
id differs from `r.id` erases exactly `r`. -/
theorem filter_ne_id_eq_erase (r : Expense) (id : Int) (hid : r.id = id) :
    ∀ L : List Expense, (L.map Expense.id).Nodup → r ∈ L →
      L.filter (fun x => decide (x.id ≠ id)) = L.erase r := by
  intro L
  induction L with
  | nil => intro _ h; simp at h
  | cons a t ih =>
    intro hnd hr
    rw [List.map_cons, List.nodup_cons] at hnd
    rcases List.mem_cons.mp hr with rfl | hrt
    · rw [List.filter_cons_of_neg (by simp [hid]), List.erase_cons_head]
      apply List.filter_eq_self.mpr
      intro x hx
      have hne : x.id ≠ r.id :=
        fun hcontra => hnd.1 (hcontra ▸ List.mem_map_of_mem Expense.id hx)
      simp [hid ▸ hne]
    · have haid : a.id ≠ id := by
        intro hcontra
        exact hnd.1 (by
          rw [hcontra, ← hid]
          exact List.mem_map_of_mem Expense.id hrt)
      rw [List.filter_cons_of_pos (by simp [haid]), ih hnd.2 hrt,
        List.erase_cons_tail]
      simp only [beq_iff_eq]
      intro hcontra
      rw [hcontra] at haid
      exact haid hid

/-- `deleteExpense` on a store with pairwise-distinct ids erases exactly
the targeted row, leaving the `AUTOINCREMENT` counter alone. -/
theorem deleteExpense_rows (id : Int) (s : AppState) (r : Expense)
    (hnd : (s.db.rows.map Expense.id).Nodup)
    (hr : r ∈ s.db.rows) (hid : r.id = id) :
    (deleteExpense id s).db.rows = s.db.rows.erase r := by
  show s.db.rows.filter (fun x => decide (x.id ≠ id)) = s.db.rows.erase r
  exact filter_ne_id_eq_erase r id hid s.db.rows hnd hr

/-- A parse result that is neither NaN nor `≤ 0` is `> 0` in the
JavaScript sense. -/
theorem JSNum.pos_of_valid :
    ∀ x : JSNum, x.isNaN = false → x.leZero = false → x.pos = true
  | .nan, h1, _ => by simp [JSNum.isNaN] at h1
  | .posInf, _, _ => rfl
  | .negInf, _, h2 => by simp [JSNum.leZero] at h2
  | .num q, _, h2 => by
    simp [JSNum.leZero] at h2
    simp [JSNum.pos]
    exact h2

/-- The `week` view keeps a leading row that meets the bound. -/
theorem getFilteredExpenses_week_cons (o now : Int) (e : Expense)
    (t : List Expense) (h : weekAgoMs o now ≤ e.date * msPerDay) :
    getFilteredExpenses o now "week" (e :: t) =
      e :: getFilteredExpenses o now "week" t := by
  simp only [getFilteredExpenses]
  rw [List.filter_cons_of_pos (by simp [h])]

/-! ## Claims -/

/-- C9: the mount-time setup drops and recreates the `expenses` table, so
regardless of the prior contents of the store, the list loaded right after
setup is empty and the store itself holds no rows. -/
theorem setup_discards_all_rows (s : AppState) :
    (setup s).expenses = [] ∧ (setup s).db.rows = [] := by
  refine ⟨?_, rfl⟩
  show selectAllByDateDesc [] = []
  rw [selectAllByDateDesc, List.mergeSort_nil]

/-- C10: for every current date, offset, expense list and selector value
other than `week` and `month` (`all` included, unrecognized strings too),
`getFilteredExpenses` returns the input list unchanged. -/
theorem filter_other_selector_identity (o now : Int) (f : String)
    (rows : List Expense) (h1 : f ≠ "week") (h2 : f ≠ "month") :
    getFilteredExpenses o now f rows = rows :=
  getFilteredExpenses_id o now f rows h1 h2

theorem filter_other_selector_identity_witness :
    ("bogus" ≠ "week") ∧ ("bogus" ≠ "month") ∧
      getFilteredExpenses 0 0 "bogus"
        [{ id := 1, amount := .num 1, category := "Food", note := none,
           date := 0 }] =
        [{ id := 1, amount := .num 1, category := "Food", note := none,
           date := 0 }] :=
  ⟨by decide, by decide,
    filter_other_selector_identity 0 0 "bogus" _ (by decide) (by decide)⟩

/-- C8: on any validation failure (amount NaN or `≤ 0`, or category empty
after trimming) `addExpense` blocks the submission atomically: the store,
the three form fields and the loaded list are all left exactly as they
were. -/
theorem addExpense_validation_atomic (now : Int) (s : AppState)
    (h : (jsParseFloat s.amount).isNaN = true ∨
         (jsParseFloat s.amount).leZero = true ∨
         jsTrim s.category = "") :
    addExpense now s = s :=
  addExpense_fail now s h

theorem addExpense_validation_atomic_witness :
    (jsParseFloat "abc").isNaN = true ∧
      addExpense 0
        { db := { rows := [], nextId := 1 }, expenses := [], amount := "abc",
          category := "Food", note := "", dateFilter := "all" } =
        { db := { rows := [], nextId := 1 }, expenses := [], amount := "abc",
          category := "Food", note := "", dateFilter := "all" } :=
  ⟨by decide, addExpense_validation_atomic 0 _ (Or.inl (by decide))⟩

/-- C4: `addExpense` inserts nothing when the amount input fails to parse
(NaN) or parses to a value `≤ 0`, and every row it does insert has a
positive amount. -/
theorem addExpense_amount_validation (now : Int) (s : AppState) :
    ((jsParseFloat s.amount).isNaN = true ∨
        (jsParseFloat s.amount).leZero = true → addExpense now s = s) ∧
    (∀ r, r ∈ (addExpense now s).db.rows → r ∉ s.db.rows →
      r.amount.pos = true) := by
  constructor
  · intro h
    exact addExpense_fail now s (h.elim Or.inl (fun hh => Or.inr (Or.inl hh)))
  · intro r hr hnot
    by_cases h1 : (jsParseFloat s.amount).isNaN = true
    · rw [addExpense_fail now s (Or.inl h1)] at hr; exact absurd hr hnot
    by_cases h2 : (jsParseFloat s.amount).leZero = true
    · rw [addExpense_fail now s (Or.inr (Or.inl h2))] at hr
      exact absurd hr hnot
    by_cases h3 : jsTrim s.category = ""
    · rw [addExpense_fail now s (Or.inr (Or.inr h3))] at hr
      exact absurd hr hnot
    rw [addExpense_success now s (by simpa using h1) (by simpa using h2) h3] at hr
    have hr' : r ∈ s.db.rows ++ [newRow now s] := hr
    rcases List.mem_append.mp hr' with hmem | hmem
    · exact absurd hmem hnot
    · rw [List.mem_singleton.mp hmem]
      exact JSNum.pos_of_valid _ (by simpa using h1) (by simpa using h2)

theorem addExpense_amount_validation_witness :
    ((jsParseFloat "-4").leZero = true →
      addExpense 0
        { db := { rows := [], nextId := 1 }, expenses := [], amount := "-4",
          category := "Food", note := "", dateFilter := "all" } =
        { db := { rows := [], nextId := 1 }, expenses := [], amount := "-4",
          category := "Food", note := "", dateFilter := "all" }) ∧
    (jsParseFloat "-4").leZero = true :=
  ⟨fun _ => (addExpense_amount_validation 0 _).1 (Or.inr (by decide)), by decide⟩

/-- C5: `addExpense` rejects a category that is empty after trimming; on a
successful submission the stored category is the trimmed input (itself
still non-empty after trimming) and the stored note is the trimmed note
text when non-empty and absent (null) otherwise. -/
theorem addExpense_category_note (now : Int) (s : AppState) :
    (jsTrim s.category = "" → addExpense now s = s) ∧
    (∀ r, r ∈ (addExpense now s).db.rows → r ∉ s.db.rows →
      r.category = jsTrim s.category ∧ jsTrim r.category ≠ "" ∧
      r.note = (if jsTrim s.note = "" then none else some (jsTrim s.note))) := by
  constructor
  · intro h; exact addExpense_fail now s (Or.inr (Or.inr h))
  · intro r hr hnot
    by_cases h1 : (jsParseFloat s.amount).isNaN = true
    · rw [addExpense_fail now s (Or.inl h1)] at hr; exact absurd hr hnot
    by_cases h2 : (jsParseFloat s.amount).leZero = true
    · rw [addExpense_fail now s (Or.inr (Or.inl h2))] at hr
      exact absurd hr hnot
    by_cases h3 : jsTrim s.category = ""
    · rw [addExpense_fail now s (Or.inr (Or.inr h3))] at hr
      exact absurd hr hnot
    rw [addExpense_success now s (by simpa using h1) (by simpa using h2) h3] at hr
    have hr' : r ∈ s.db.rows ++ [newRow now s] := hr
    rcases List.mem_append.mp hr' with hmem | hmem
    · exact absurd hmem hnot
    · rw [List.mem_singleton.mp hmem]
      refine ⟨rfl, ?_, rfl⟩
      show jsTrim (jsTrim s.category) ≠ ""
      rw [jsTrim_idem]
      exact h3

theorem addExpense_category_note_witness :
    (jsTrim "   " = "" →
      addExpense 0
        { db := { rows := [], nextId := 1 }, expenses := [], amount := "3",
          category := "   ", note := "", dateFilter := "all" } =
        { db := { rows := [], nextId := 1 }, expenses := [], amount := "3",
          category := "   ", note := "", dateFilter := "all" }) ∧
    jsTrim "   " = "" :=
  ⟨fun _ => (addExpense_category_note 0 _).1 (by decide), by decide⟩

/-- C6: with pairwise-distinct ids in the store, `deleteExpense id`
removes exactly the row whose id equals `id` and leaves every other row in
the store unchanged. -/
theorem deleteExpense_removes_exactly (id : Int) (s : AppState) (r : Expense)
    (hnd : (s.db.rows.map Expense.id).Nodup)
    (hr : r ∈ s.db.rows) (hid : r.id = id) :
    (deleteExpense id s).db.rows = s.db.rows.erase r ∧
      ∀ r' ∈ s.db.rows, r'.id ≠ id → r' ∈ (deleteExpense id s).db.rows := by
  refine ⟨deleteExpense_rows id s r hnd hr hid, ?_⟩
  intro r' hr' hne
  show r' ∈ s.db.rows.filter (fun x => decide (x.id ≠ id))
  exact List.mem_filter.mpr ⟨hr', by simp [hne]⟩

theorem deleteExpense_removes_exactly_witness :
    (([{ id := 1, amount := .num 3, category := "a", note := none, date := 0 },
       { id := 2, amount := .num 4, category := "b", note := none, date := 1 }]
        |>.map Expense.id).Nodup) ∧
    (({ id := 1, amount := .num 3, category := "a", note := none,
        date := 0 } : Expense) ∈
      [{ id := 1, amount := .num 3, category := "a", note := none, date := 0 },
       { id := 2, amount := .num 4, category := "b", note := none, date := 1 }]) ∧
    ((deleteExpense 1
        { db := { rows :=
            [{ id := 1, amount := .num 3, category := "a", note := none,
               date := 0 },
             { id := 2, amount := .num 4, category := "b", note := none,
               date := 1 }], nextId := 3 },
          expenses := [], amount := "", category := "", note := "",
          dateFilter := "all" }).db.rows =
      [{ id := 1, amount := .num 3, category := "a", note := none, date := 0 },
       { id := 2, amount := .num 4, category := "b", note := none,
         date := 1 }].erase
        { id := 1, amount := .num 3, category := "a", note := none, date := 0 } ∧
      ∀ r' ∈ [{ id := 1, amount := .num 3, category := "a", note := none,
                date := 0 },
              { id := 2, amount := .num 4, category := "b", note := none,
                date := 1 }], r'.id ≠ 1 →
        r' ∈ (deleteExpense 1
          { db := { rows :=
              [{ id := 1, amount := .num 3, category := "a", note := none,
                 date := 0 },
               { id := 2, amount := .num 4, category := "b", note := none,
                 date := 1 }], nextId := 3 },
            expenses := [], amount := "", category := "", note := "",
            dateFilter := "all" }).db.rows) :=
  ⟨by decide, by decide,
    deleteExpense_removes_exactly 1 _ _ (by decide) (by decide) rfl⟩

/-- C3: a valid submission (parseable amount `> 0`, category non-empty
after trimming, fresh `AUTOINCREMENT` id) followed by the reload inside
`addExpense` yields a loaded list containing the new expense exactly once,
dated the current UTC calendar day of the add. -/
theorem add_then_load_contains_once (now : Int) (s : AppState)
    (h1 : (jsParseFloat s.amount).isNaN = false)
    (h2 : (jsParseFloat s.amount).leZero = false)
    (h3 : jsTrim s.category ≠ "")
    (hfresh : ∀ r ∈ s.db.rows, r.id ≠ s.db.nextId) :
    (addExpense now s).expenses.count (newRow now s) = 1 ∧
      (newRow now s).date = dayOf now := by
  refine ⟨?_, rfl⟩
  rw [addExpense_success now s h1 h2 h3]
  show (selectAllByDateDesc (s.db.rows ++ [newRow now s])).count
    (newRow now s) = 1
  rw [selectAllByDateDesc_count, List.count_append]
  have h0 : s.db.rows.count (newRow now s) = 0 :=
    List.count_eq_zero.mpr (fun hmem => hfresh _ hmem rfl)
  rw [h0]
  simp

theorem add_then_load_contains_once_witness :
    (jsParseFloat "12.50").isNaN = false ∧
    (addExpense 1710504000000
      { db := { rows := [], nextId := 1 }, expenses := [], amount := "12.50",
        category := "Food", note := "x", dateFilter := "all" }).expenses.count
      (newRow 1710504000000
        { db := { rows := [], nextId := 1 }, expenses := [], amount := "12.50",
          category := "Food", note := "x", dateFilter := "all" }) = 1 :=
  ⟨by decide,
    (add_then_load_contains_once 1710504000000 _
      (by decide) (by decide) (by decide) (by decide)).1⟩

/-- C7: adding `{amount: "12.50", category: "Food", note: ""}` to a store
whose rows all predate the current UTC day stores the row
`{amount: 12.5, category: "Food", note: null, date: today}`, and the
reloaded `all` and `week` views rendered afterwards both show it first. -/
theorem add_food_example_row_first (o now : Int) (s : AppState) (y m day : Int)
    (hamt : s.amount = "12.50") (hcat : s.category = "Food")
    (hnote : s.note = "")
    (hold : ∀ r ∈ s.db.rows, r.date < dayOf now)
    (hc : civilFromDays (dayOf (now + o)) = (y, m, day))
    (hm1 : 1 ≤ m) (hm2 : m ≤ 12)
    (hrt : daysFromCivil y m day = dayOf (now + o)) :
    newRow now s =
      { id := s.db.nextId, amount := .num (mkRat 25 2),
        category := "Food", note := none, date := dayOf now } ∧
    (addExpense now s).db.rows = s.db.rows ++ [newRow now s] ∧
    (getFilteredExpenses o now "all" (addExpense now s).expenses).head? =
      some (newRow now s) ∧
    (getFilteredExpenses o now "week" (addExpense now s).expenses).head? =
      some (newRow now s) := by
  have h1 : (jsParseFloat s.amount).isNaN = false := by rw [hamt]; decide
  have h2 : (jsParseFloat s.amount).leZero = false := by rw [hamt]; decide
  have h3 : jsTrim s.category ≠ "" := by rw [hcat]; decide
  have hrow : newRow now s =
      { id := s.db.nextId, amount := .num (mkRat 25 2),
        category := "Food", note := none, date := dayOf now } := by
    rw [newRow, hamt, hcat, hnote,
      show jsParseFloat "12.50" = .num (mkRat 25 2) from by decide,
      show jsTrim "Food" = "Food" from by decide,
      show jsTrim "" = "" from by decide]
    simp
  have hsucc := addExpense_success now s h1 h2 h3
  have hexp : (addExpense now s).expenses =
      selectAllByDateDesc (s.db.rows ++ [newRow now s]) := by rw [hsucc]
  have hold2 : ∀ r ∈ s.db.rows, r.date < (newRow now s).date := hold
  have hhead := selectAllByDateDesc_head_of_new_max s.db.rows (newRow now s) hold2
  rcases hsel : selectAllByDateDesc (s.db.rows ++ [newRow now s]) with _ | ⟨x, t⟩
  · rw [hsel] at hhead; simp at hhead
  · rw [hsel, List.head?_cons] at hhead
    have hx : x = newRow now s := by injection hhead
    refine ⟨hrow, by rw [hsucc], ?_, ?_⟩
    · rw [hexp, hsel,
        getFilteredExpenses_id o now "all" _ (by decide) (by decide), hx,
        List.head?_cons]
    · rw [hexp, hsel, hx]
      have hcond : weekAgoMs o now ≤ (newRow now s).date * msPerDay := by
        rw [weekAgoMs_eq o now y m day hc hm1 hm2 hrt]
        show now - 7 * msPerDay ≤ dayOf now * msPerDay
        have hb := timeWithinDay_lt now
        rw [timeWithinDay] at hb
        linarith [msPerDay_pos]
      rw [getFilteredExpenses_week_cons o now _ t hcond, List.head?_cons]

theorem add_food_example_row_first_witness :
    civilFromDays (dayOf (1710504000000 + 0)) = (2024, 3, 15) ∧
    daysFromCivil 2024 3 15 = dayOf (1710504000000 + 0) ∧
    (newRow 1710504000000
      { db := { rows := [], nextId := 1 }, expenses := [], amount := "12.50",
        category := "Food", note := "", dateFilter := "all" } =
      { id := 1, amount := .num (mkRat 25 2), category := "Food",
        note := none, date := dayOf 1710504000000 } ∧
    (addExpense 1710504000000
      { db := { rows := [], nextId := 1 }, expenses := [], amount := "12.50",
        category := "Food", note := "", dateFilter := "all" }).db.rows =
      [] ++ [newRow 1710504000000
        { db := { rows := [], nextId := 1 }, expenses := [], amount := "12.50",
          category := "Food", note := "", dateFilter := "all" }] ∧
    (getFilteredExpenses 0 1710504000000 "all"
      (addExpense 1710504000000
        { db := { rows := [], nextId := 1 }, expenses := [], amount := "12.50",
          category := "Food", note := "", dateFilter := "all" }).expenses).head? =
      some (newRow 1710504000000
        { db := { rows := [], nextId := 1 }, expenses := [], amount := "12.50",
          category := "Food", note := "", dateFilter := "all" }) ∧
    (getFilteredExpenses 0 1710504000000 "week"
      (addExpense 1710504000000
        { db := { rows := [], nextId := 1 }, expenses := [], amount := "12.50",
          category := "Food", note := "", dateFilter := "all" }).expenses).head? =
      some (newRow 1710504000000
        { db := { rows := [], nextId := 1 }, expenses := [], amount := "12.50",
          category := "Food", note := "", dateFilter := "all" })) :=
  ⟨by decide, by decide,
    add_food_example_row_first 0 1710504000000 _ 2024 3 15 rfl rfl rfl
      (by decide) (by decide) (by decide) (by decide) (by decide)⟩

/-- C1 as stated is false: with the device on UTC at noon on 2024-03-15
(timestamp `1710504000000`), the `week` filter excludes a row stored
exactly 7 days earlier (day number `19790` = 2024-03-08), because the row
parses to UTC midnight of 2024-03-08 while `weekAgo` is noon of
2024-03-08. -/
theorem week_filter_excludes_seven_day_old_row :
    ({ id := 1, amount := .num 5, category := "Food", note := none,
       date := 19790 } : Expense) ∉
      getFilteredExpenses 0 1710504000000 "week"
        [{ id := 1, amount := .num 5, category := "Food", note := none,
           date := 19790 }] := by
  decide

/-- C1 (amended): the `week` filter always excludes rows dated 8 or more
days before the current UTC day; a row dated exactly 7 days before it is
included only at the degenerate instant in which `now` is exactly UTC
midnight (`weekAgo` keeps the current time of day while stored dates parse
to UTC midnight), and is excluded at any later time of day. -/
theorem week_filter_boundary (o now : Int) (rows : List Expense)
    (y m day : Int)
    (hc : civilFromDays (dayOf (now + o)) = (y, m, day))
    (hm1 : 1 ≤ m) (hm2 : m ≤ 12)
    (hrt : daysFromCivil y m day = dayOf (now + o)) :
    (∀ e ∈ rows, e.date ≤ dayOf now - 8 →
      e ∉ getFilteredExpenses o now "week" rows) ∧
    (∀ e ∈ rows, e.date = dayOf now - 7 →
      (e ∈ getFilteredExpenses o now "week" rows ↔
        now = dayOf now * msPerDay)) := by
  have hw := weekAgoMs_eq o now y m day hc hm1 hm2 hrt
  have hd1 := dayOf_mul_le now
  constructor
  · intro e he hdate hmem
    rcases (mem_week_filter o now rows e).mp hmem with ⟨_, hle⟩
    rw [hw] at hle
    have hmul : e.date * msPerDay ≤ (dayOf now - 8) * msPerDay :=
      mul_le_mul_of_nonneg_right hdate (le_of_lt msPerDay_pos)
    have hexp : (dayOf now - 8) * msPerDay =
        dayOf now * msPerDay - 8 * msPerDay := by ring
    linarith [msPerDay_pos]
  · intro e he hdate
    rw [mem_week_filter, hw, hdate]
    have hexp : (dayOf now - 7) * msPerDay =
        dayOf now * msPerDay - 7 * msPerDay := by ring
    constructor
    · rintro ⟨_, hle⟩
      rw [hexp] at hle
      have hnow : now ≤ dayOf now * msPerDay := by linarith
      exact le_antisymm hnow hd1
    · intro heq
      refine ⟨he, ?_⟩
      rw [hexp]
      linarith

theorem week_filter_boundary_witness :
    civilFromDays (dayOf (1710504000000 + 0)) = (2024, 3, 15) ∧
    daysFromCivil 2024 3 15 = dayOf (1710504000000 + 0) ∧
    ((∀ e ∈ [({ id := 1, amount := .num 5, category := "a", note := none,
                date := 19789 } : Expense),
              { id := 2, amount := .num 5, category := "a", note := none,
                date := 19790 }],
        e.date ≤ dayOf 1710504000000 - 8 →
        e ∉ getFilteredExpenses 0 1710504000000 "week"
          [{ id := 1, amount := .num 5, category := "a", note := none,
             date := 19789 },
           { id := 2, amount := .num 5, category := "a", note := none,
             date := 19790 }]) ∧
    (∀ e ∈ [({ id := 1, amount := .num 5, category := "a", note := none,
               date := 19789 } : Expense),
             { id := 2, amount := .num 5, category := "a", note := none,
               date := 19790 }],
        e.date = dayOf 1710504000000 - 7 →
        (e ∈ getFilteredExpenses 0 1710504000000 "week"
          [{ id := 1, amount := .num 5, category := "a", note := none,
             date := 19789 },
           { id := 2, amount := .num 5, category := "a", note := none,
             date := 19790 }] ↔
          1710504000000 = dayOf 1710504000000 * msPerDay))) :=
  ⟨by decide, by decide,
    week_filter_boundary 0 1710504000000 _ 2024 3 15
      (by decide) (by decide) (by decide) (by decide)⟩

/-- C2 as stated is false: with the device on UTC at noon on 2024-03-15
(timestamp `1710504000000`), the `month` filter excludes a row stored
exactly one calendar month earlier (day number `19768` = 2024-02-15),
because the row parses to UTC midnight of 2024-02-15 while `monthAgo` is
noon of 2024-02-15. -/
theorem month_filter_excludes_month_old_row :
    ({ id := 1, amount := .num 5, category := "Food", note := none,
       date := 19768 } : Expense) ∉
      getFilteredExpenses 0 1710504000000 "month"
        [{ id := 1, amount := .num 5, category := "Food", note := none,
           date := 19768 }] := by
  decide

/-- C2 (amended): with the UTC offset below one day, the `month` filter
always excludes rows dated strictly before the previous-month day computed
from the current local civil date (same day-of-month one civil month back,
a day too large for the shorter month overflowing into the following month
as `MakeDay` does); a row dated exactly on that month-ago day is included
iff the local time of day does not exceed the UTC offset — on a device on
UTC, only at exactly midnight. -/
theorem month_filter_boundary (o now : Int) (rows : List Expense)
    (y m day : Int)
    (hc : civilFromDays (dayOf (now + o)) = (y, m, day))
    (hm1 : 1 ≤ m) (hm2 : m ≤ 12) (ho : o < msPerDay) :
    (∀ e ∈ rows,
      e.date < daysFromCivil (prevMonthPair y m).1 (prevMonthPair y m).2 day →
      e ∉ getFilteredExpenses o now "month" rows) ∧
    (∀ e ∈ rows,
      e.date = daysFromCivil (prevMonthPair y m).1 (prevMonthPair y m).2 day →
      (e ∈ getFilteredExpenses o now "month" rows ↔
        timeWithinDay (now + o) ≤ o)) := by
  have hma := monthAgoMs_eq o now y m day hc hm1 hm2
  have htod0 := timeWithinDay_nonneg (now + o)
  constructor
  · intro e he hdate hmem
    rcases (mem_month_filter o now rows e).mp hmem with ⟨_, hle⟩
    rw [hma] at hle
    have hmul : e.date * msPerDay ≤
        (daysFromCivil (prevMonthPair y m).1 (prevMonthPair y m).2 day - 1) *
          msPerDay :=
      mul_le_mul_of_nonneg_right (by omega) (le_of_lt msPerDay_pos)
    have hexp : (daysFromCivil (prevMonthPair y m).1 (prevMonthPair y m).2 day
          - 1) * msPerDay =
        daysFromCivil (prevMonthPair y m).1 (prevMonthPair y m).2 day *
          msPerDay - msPerDay := by ring
    linarith
  · intro e he hdate
    rw [mem_month_filter, hma, hdate]
    constructor
    · rintro ⟨_, hle⟩
      linarith
    · intro hto
      exact ⟨he, by linarith⟩

theorem month_filter_boundary_witness :
    civilFromDays (dayOf (1710460800000 + 0)) = (2024, 3, 15) ∧
    ((0 : Int) < msPerDay) ∧
    ((∀ e ∈ [({ id := 1, amount := .num 5, category := "a", note := none,
                date := 19768 } : Expense),
              { id := 2, amount := .num 5, category := "a", note := none,
                date := 19767 }],
        e.date < daysFromCivil (prevMonthPair 2024 3).1 (prevMonthPair 2024 3).2
          15 →
        e ∉ getFilteredExpenses 0 1710460800000 "month"
          [{ id := 1, amount := .num 5, category := "a", note := none,
             date := 19768 },
           { id := 2, amount := .num 5, category := "a", note := none,
             date := 19767 }]) ∧
    (∀ e ∈ [({ id := 1, amount := .num 5, category := "a", note := none,
               date := 19768 } : Expense),
             { id := 2, amount := .num 5, category := "a", note := none,
               date := 19767 }],
        e.date = daysFromCivil (prevMonthPair 2024 3).1 (prevMonthPair 2024 3).2
          15 →
        (e ∈ getFilteredExpenses 0 1710460800000 "month"
          [{ id := 1, amount := .num 5, category := "a", note := none,
             date := 19768 },
           { id := 2, amount := .num 5, category := "a", note := none,
             date := 19767 }] ↔
          timeWithinDay (1710460800000 + 0) ≤ 0))) :=
  ⟨by decide, by decide,
    month_filter_boundary 0 1710460800000 _ 2024 3 15
      (by decide) (by decide) (by decide) (by decide)⟩

end ExpenseTracker
